import Mathlib

/-!
Shallow embedding of the MontagePy video-montage generator, together with
theorems checking its natural-language specification against the code.

The embedding follows the Python sources:
 - montagepy/converters/gif_converter.py   (GifConverter._resample_frames)
 - montagepy/extractors/frame_extractor.py (FrameExtractor.extract_frames,
                                            FrameExtractor._extract_single_frame)
 - montagepy/core/handlers.py              (process_single_file, GIF branch)
 - montagepy/utils/grid_utils.py           (get_grid_size_by_duration)
 - montagepy/utils/file_utils.py           (generate_unique_filename)
 - montagepy/core/layout.py                (GridLayout.add_cell, GridLayout.get_cell)

Python floats are modelled as rationals, Python ints as integers, Python
strings as lists of characters, and raised exceptions as `Except` errors.
-/

set_option maxRecDepth 40000

namespace MontagePy

/-- Python `int(x)` applied to a rational: truncation toward zero. -/
def pyInt (q : ℚ) : ℤ :=
  if q < 0 then -⌊-q⌋ else ⌊q⌋

instance {ε α : Type} [DecidableEq ε] [DecidableEq α] :
    DecidableEq (Except ε α) := fun a b =>
  match a, b with
  | .ok x, .ok y =>
    if h : x = y then .isTrue (by rw [h]) else .isFalse (by simp [h])
  | .error e, .error f =>
    if h : e = f then .isTrue (by rw [h]) else .isFalse (by simp [h])
  | .ok _, .error _ => .isFalse (by simp)
  | .error _, .ok _ => .isFalse (by simp)

/-! ## GifConverter._resample_frames (gif_converter.py lines 71-104)

```python
if not frames:
    return frames
target_frame_count = int(duration * self.config.gif_fps)
if len(frames) <= target_frame_count:
    return frames
if target_frame_count <= 0:
    target_frame_count = 1
step = len(frames) / target_frame_count
sampled_frames = []
for i in range(target_frame_count):
    index = int(i * step)
    if index >= len(frames):
        index = len(frames) - 1
    sampled_frames.append(frames[index])
return sampled_frames
```
-/

/-- Model of `GifConverter._resample_frames`.  The `getD` default is the first
frame; it is only consulted when the clamped index were out of range, which the
code rules out with its explicit clamp. -/
def resampleFrames {α : Type} (frames : List α) (duration : ℚ) (gif_fps : ℚ) :
    List α :=
  match frames with
  | [] => []
  | f0 :: _ =>
    let n : ℤ := (frames.length : ℤ)
    let target0 : ℤ := pyInt (duration * gif_fps)
    if n ≤ target0 then frames
    else
      let target : ℤ := if target0 ≤ 0 then 1 else target0
      let step : ℚ := (frames.length : ℚ) / (target : ℚ)
      (List.range target.toNat).map (fun (i : ℕ) =>
        let index0 : ℤ := pyInt ((i : ℚ) * step)
        let index : ℤ := if n ≤ index0 then n - 1 else index0
        frames.getD index.toNat f0)

/-! ## FrameExtractor.extract_frames, scheduling part (frame_extractor.py lines 35-71)

The thumbnail height auto-calculation (lines 40-45) can raise before the skip
validation, so its error path is kept; the computed height value does not
influence the returned timestamps and is bound to an unused local. -/

/-- Model of the validation and timestamp-scheduling portion of
`FrameExtractor.extract_frames` (lines 35-71).  Returns the list of target
timestamps handed to the parallel workers, or the `ValueError` raised. -/
def extractFramesSchedule (columns rows thumb_width thumb_height : ℤ)
    (video_width video_height : ℤ)
    (skip_start_percent skip_end_percent : ℚ) (duration : ℚ) :
    Except String (List ℚ) :=
  let num_frames : ℤ := columns * rows
  if num_frames ≤ 0 then .error "Number of frames must be positive"
  else if thumb_height ≤ 0 ∧ video_height = 0 then
    .error "Video height is 0, cannot auto-calculate thumbnail height"
  else
    let _thumb_height : ℤ :=
      if thumb_height ≤ 0 then
        pyInt ((thumb_width : ℚ) / ((video_width : ℚ) / (video_height : ℚ)))
      else thumb_height
    let skip_start : ℚ := skip_start_percent / 100
    let skip_end : ℚ := skip_end_percent / 100
    if skip_start < 0 ∨ 1 ≤ skip_start then
      .error "skip_start_percent must be between 0 and 100"
    else if skip_end < 0 ∨ 1 ≤ skip_end then
      .error "skip_end_percent must be between 0 and 100"
    else if 1 ≤ skip_start + skip_end then
      .error "skip_start_percent + skip_end_percent must be less than 100"
    else
      let start_offset := duration * skip_start
      let end_offset := duration * (1 - skip_end)
      let dur := end_offset - start_offset
      let interval := dur / (num_frames : ℚ)
      .ok ((List.range num_frames.toNat).map
        (fun (i : ℕ) => start_offset + (i : ℚ) * interval))

/-! ## GIF clip scheduling (handlers.py lines 86-95)

```python
num_clips = cfg.columns * cfg.rows
skip_start = cfg.skip_start_percent / 100.0
skip_end = cfg.skip_end_percent / 100.0
start_offset = video_info.duration * skip_start
end_offset = video_info.duration * (1.0 - skip_end)
duration = end_offset - start_offset
interval = duration / num_clips
timestamps = [start_offset + (i * interval) for i in range(num_clips)]
```
No validation of the skip percentages happens on this path. -/

/-- Model of the GIF-mode clip scheduling in `process_single_file`
(handlers.py lines 86-95). -/
def gifClipTimestamps (columns rows : ℤ)
    (skip_start_percent skip_end_percent : ℚ) (duration : ℚ) : List ℚ :=
  let num_clips : ℤ := columns * rows
  let skip_start : ℚ := skip_start_percent / 100
  let skip_end : ℚ := skip_end_percent / 100
  let start_offset := duration * skip_start
  let end_offset := duration * (1 - skip_end)
  let dur := end_offset - start_offset
  let interval := dur / (num_clips : ℚ)
  (List.range num_clips.toNat).map (fun (i : ℕ) => start_offset + (i : ℚ) * interval)

/-! ## get_grid_size_by_duration (grid_utils.py lines 6-33) -/

/-- `DurationGridRule` from config.py. -/
structure DurationGridRule where
  max_duration : ℚ
  columns : ℤ
  rows : ℤ
deriving DecidableEq

/-- The slice of `Config` that `get_grid_size_by_duration` reads. -/
structure GridConfig where
  auto_grid : Bool
  duration_grid_rules : List DurationGridRule
  columns : ℤ
  rows : ℤ

instance : DecidableRel
    (fun a b : DurationGridRule => a.max_duration ≤ b.max_duration) :=
  fun _ _ => inferInstanceAs (Decidable _)

/-- Model of `get_grid_size_by_duration`.  Python's stable `sorted` is
modelled by the stable `List.insertionSort`. -/
def get_grid_size_by_duration (config : GridConfig) (duration_seconds : ℚ) :
    ℤ × ℤ :=
  if ¬config.auto_grid ∨ config.duration_grid_rules = [] then
    (config.columns, config.rows)
  else
    let limited_rules :=
      config.duration_grid_rules.filter (fun r => decide (0 < r.max_duration))
    let default_rule :=
      config.duration_grid_rules.find? (fun r => decide (r.max_duration < 0))
    let sorted_rules :=
      limited_rules.insertionSort
        (fun a b => a.max_duration ≤ b.max_duration)
    match sorted_rules.find?
        (fun r => decide (duration_seconds ≤ r.max_duration)) with
    | some rule => (rule.columns, rule.rows)
    | none =>
      match default_rule with
      | some r => (r.columns, r.rows)
      | none => (config.columns, config.rows)

/-! ## FrameExtractor._extract_single_frame (frame_extractor.py lines 107-236)

A demuxed packet is modelled by the list of frames its `decode()` yields;
the container after the backward seek (and after the rewind to position 0)
is modelled by the corresponding list of packets.  A decoded frame carries
its `key_frame` flag and optional `pts`. -/

/-- A decoded video frame as `_extract_single_frame` inspects it. -/
structure DFrame where
  key_frame : Bool
  pts : Option ℤ
deriving DecidableEq

/-- Keyframe timestamp computation: `float(pts * time_base)` with the target
timestamp as the fallback when the frame has no PTS (lines 169-172, 178-182,
204-207). -/
def frameTime (time_base timestamp : ℚ) (f : DFrame) : ℚ :=
  match f.pts with
  | some p => (p : ℚ) * time_base
  | none => timestamp

/-- `max_packets = 15` (line 148). -/
def maxPackets : ℕ := 15

/-- The demux/decode loop of lines 154-189.  State: packets still to demux,
`packet_count`, and the `seek_position_keyframe`/`seek_position_time` pair.
Returns the `(keyframe, keyframe_time)` result of the loop together with the
final fallback pair.  Each packet increments `packet_count` and is skipped
once the count exceeds `max_packets`; inside a packet, the first keyframe
simultaneously becomes the fallback candidate (if unset) and the result, and
both loops exit. -/
def scanPackets (time_base timestamp : ℚ) :
    List (List DFrame) → ℕ → Option (DFrame × ℚ) →
      Option (DFrame × ℚ) × Option (DFrame × ℚ)
  | [], _, seekPos => (none, seekPos)
  | p :: ps, packet_count, seekPos =>
    if maxPackets < packet_count + 1 then (none, seekPos)
    else
      match p.find? (fun f => f.key_frame) with
      | some f =>
        let seekPos2 :=
          match seekPos with
          | some s => some s
          | none => some (f, frameTime time_base timestamp f)
        (some (f, frameTime time_base timestamp f), seekPos2)
      | none => scanPackets time_base timestamp ps (packet_count + 1) seekPos

/-- Model of `_extract_single_frame` (lines 139-233): the main scan after the
backward seek, the fallback to the seek-position keyframe (lines 192-196),
and the last-resort rewind to position 0 scanning without a packet budget
(lines 198-214). -/
def extract_single_frame (time_base timestamp : ℚ)
    (demuxAfterSeek demuxFromStart : List (List DFrame)) :
    Except String (DFrame × ℚ) :=
  match scanPackets time_base timestamp demuxAfterSeek 0 none with
  | (some kf, _) => .ok kf
  | (none, some spk) => .ok spk
  | (none, none) =>
    match demuxFromStart.flatten.find? (fun f => f.key_frame) with
    | some f => .ok (f, frameTime time_base timestamp f)
    | none => .error "Could not find any keyframe starting from timestamp"

/-! ## Parallel extraction assembly

frame_extractor.py lines 79-105: results arrive in completion order
(`as_completed`) and are written into pre-allocated slots at their submission
index.  clip_extractor.py lines 56-78: results are appended in completion
order and finally sorted by clip center timestamp.  A completion order is a
permutation of the task indices; a worker result is a function of its task
(threads run `_extract_single_frame` / `_extract_single_clip` on the task's
timestamp alone). -/

/-- Static path: fill the pre-allocated `frames`/`actual_timestamps` slots in
completion order (frame_extractor.py lines 80-98). -/
def assembleSlots {α : Type} (n : ℕ) (result : ℕ → α) (order : List ℕ) :
    List (Option α) :=
  order.foldl (fun slots i => slots.set i (some (result i))) (List.replicate n none)

/-- The fields of `VideoClip` (models.py) that the clip path manipulates;
frames are abstracted to identifiers. -/
structure PyVideoClip where
  start_time : ℚ
  end_time : ℚ
  frames : List ℕ
  timestamp : ℚ
deriving DecidableEq

instance : DecidableRel
    (fun a b : PyVideoClip => a.timestamp ≤ b.timestamp) :=
  fun _ _ => inferInstanceAs (Decidable _)

/-- Clip path: append results in completion order, then
`clips.sort(key=lambda c: c.timestamp)` (clip_extractor.py lines 67-78).
Python's stable sort is modelled by the stable `List.insertionSort`.  The
worker `w` builds the clip from the task's center timestamp
(`timestamps.getD i 0` models `timestamps[i]`). -/
def collectClips (w : ℚ → PyVideoClip) (timestamps : List ℚ)
    (order : List ℕ) : List PyVideoClip :=
  (order.map (fun i => w (timestamps.getD i 0))).insertionSort
    (fun a b => a.timestamp ≤ b.timestamp)

/-! ## GridLayout (layout.py) -/

/-- `GridCell` from layout.py. -/
structure GridCell where
  row : ℤ
  col : ℤ
  row_span : ℤ
  col_span : ℤ
  index : ℤ
deriving DecidableEq

/-- `GridLayout` state: grid dimensions and the cell list. -/
structure GridLayout where
  rows : ℤ
  cols : ℤ
  cells : List GridCell
deriving DecidableEq

/-- An empty layout, as built by `GridLayout.__init__`. -/
def GridLayout.init (rows cols : ℤ) : GridLayout := ⟨rows, cols, []⟩

/-- Model of `GridLayout.add_cell` (lines 31-51): four bounds checks raise
`ValueError` before the cell is appended. -/
def GridLayout.add_cell (l : GridLayout)
    (row col row_span col_span index : ℤ) : Except String GridLayout :=
  if row < 0 ∨ l.rows ≤ row then .error "Row is out of bounds"
  else if col < 0 ∨ l.cols ≤ col then .error "Column is out of bounds"
  else if l.rows < row + row_span then .error "Cell extends beyond bottom edge"
  else if l.cols < col + col_span then .error "Cell extends beyond right edge"
  else .ok { l with cells := l.cells ++ [⟨row, col, row_span, col_span, index⟩] }

/-- Model of `GridLayout.get_cell` (lines 53-70): first an explicit-index
match, then the positional cell provided its explicit index is unset (-1). -/
def GridLayout.get_cell (l : GridLayout) (index : ℤ) : Option GridCell :=
  match l.cells.find? (fun c => c.index == index) with
  | some c => some c
  | none =>
    if 0 ≤ index ∧ index < (l.cells.length : ℤ) then
      match l.cells[index.toNat]? with
      | some c => if c.index == -1 then some c else none
      | none => none
    else none

/-- One `add_cell` call per list entry, mirroring a Python call sequence;
a raise aborts the sequence. -/
structure AddOp where
  row : ℤ
  col : ℤ
  row_span : ℤ
  col_span : ℤ
  index : ℤ
deriving DecidableEq

/-- Run a sequence of `add_cell` calls. -/
def GridLayout.applyOps (l : GridLayout) : List AddOp → Except String GridLayout
  | [] => .ok l
  | op :: ops =>
    match l.add_cell op.row op.col op.row_span op.col_span op.index with
    | .ok l2 => l2.applyOps ops
    | .error e => .error e

/-- The bounds invariant claimed for stored cells. -/
def CellInBounds (l : GridLayout) (c : GridCell) : Prop :=
  0 ≤ c.row ∧ c.row + c.row_span ≤ l.rows ∧
  0 ≤ c.col ∧ c.col + c.col_span ≤ l.cols

/-! ## generate_unique_filename (file_utils.py lines 54-179)

Python strings are modelled as lists of characters and filesystem paths as
lists of path components (strings), already resolved and absolute; the
`resolve()/absolute()` plumbing of lines 68-96 is the identity on such
paths.  `Path.relative_to` succeeds exactly when the root's components are
a prefix of the video's. -/

/-- A Python string. -/
abbrev Str := List Char

/-- `"sep".join(parts)` for a one-character separator. -/
def strJoin (sep : Char) : List Str → Str
  | [] => []
  | [s] => s
  | s :: rest => s ++ sep :: strJoin sep rest

/-- `s.split(sep)` for a one-character separator: Python semantics,
`"".split("_") == [""]` and `"_".split("_") == ["", ""]`. -/
def strSplit (sep : Char) : Str → List Str
  | [] => [[]]
  | c :: rest =>
    let r := strSplit sep rest
    if c = sep then [] :: r
    else
      match r with
      | [] => [[c]]
      | t :: ts => (c :: t) :: ts

/-- `PurePath(name).stem`: the file name minus its suffix, where the suffix
starts at the last dot that is neither leading nor trailing. -/
def pathStem (name : Str) : Str :=
  match ((List.range name.length).filter (fun i =>
      decide (0 < i) && decide (i + 1 < name.length) &&
        (name.getD i ' ' == '.'))).getLast? with
  | some i => name.take i
  | none => name

/-- Does `root` list a prefix of `video`'s components?  (`Path.relative_to`
succeeds exactly then.) -/
def isPathUnder : List Str → List Str → Bool
  | [], _ => true
  | _ :: _, [] => false
  | r :: rs, v :: vs => (r == v) && isPathUnder rs vs

/-- `max_filename_len = 255` (line 143). -/
def maxFilenameLen : ℕ := 255

/-- The `while parts and len(filename) > max_filename_len` loop of lines
150-161.  Arguments: the parts still held, the current `path_part` and
`filename`.  Returns the final `(filename, path_part)`; note that when the
parts run out the loop sets `filename = base_name + suffix` and breaks
WITHOUT updating `path_part`, leaving its stale value behind (used again by
the final truncation check). -/
def dropPartsLoop (base_name suffix : Str) :
    List Str → Str → Str → Str × Str
  | [], path_part, filename => (filename, path_part)
  | _ :: rest, path_part, filename =>
    if filename.length ≤ maxFilenameLen then (filename, path_part)
    else
      match rest with
      | [] => (base_name ++ suffix, path_part)
      | r :: rs =>
        let pp2 := strJoin '_' (r :: rs)
        dropPartsLoop base_name suffix (r :: rs) pp2
          (pp2 ++ '_' :: base_name ++ suffix)

/-- The final truncation check of lines 163-177. -/
def finalTruncate (base_name suffix path_part filename : Str) : Str :=
  if filename.length ≤ maxFilenameLen then filename
  else
    if path_part ≠ [] then
      let available_len : ℤ :=
        (maxFilenameLen : ℤ) - path_part.length - 1 - suffix.length
      if 0 < available_len ∧ available_len < (base_name.length : ℤ) then
        path_part ++ '_' :: base_name.take available_len.toNat ++ suffix
      else base_name ++ suffix
    else
      if maxFilenameLen - suffix.length < base_name.length then
        base_name.take (maxFilenameLen - suffix.length) ++ suffix
      else filename

/-- Model of `generate_unique_filename`.  `video` and `root` are absolute
paths as component lists; the last component of `video` is the file name. -/
def generate_unique_filename (video root : List Str) : Str :=
  let name : Str := (video.getLast?).getD []
  let base_name := pathStem name
  let suffix : Str := ("_montage.jpg").data
  if ¬(isPathUnder root video ∧ root.length < video.length) then
    base_name ++ suffix
  else
    let rel := video.drop root.length
    if rel.length ≤ 1 then base_name ++ suffix
    else
      let path_parts := rel.dropLast.filter (fun p => p != ('.' :: []))
      let path_part := strJoin '_' path_parts
      let filename :=
        if path_part ≠ [] then path_part ++ '_' :: base_name ++ suffix
        else base_name ++ suffix
      if filename.length ≤ maxFilenameLen then filename
      else
        let parts := if path_part ≠ [] then strSplit '_' path_part else []
        let fp := dropPartsLoop base_name suffix parts path_part filename
        finalTruncate base_name suffix fp.2 fp.1

/-! ## Helper lemmas: resampling -/

lemma pyInt_of_nonneg {q : ℚ} (h : 0 ≤ q) : pyInt q = ⌊q⌋ := by
  unfold pyInt
  rw [if_neg (not_lt.mpr h)]

lemma resampleFrames_keep {α : Type} (f0 : α) (rest : List α) (d fps : ℚ)
    (h : (((f0 :: rest).length : ℕ) : ℤ) ≤ pyInt (d * fps)) :
    resampleFrames (f0 :: rest) d fps = f0 :: rest := by
  simp only [resampleFrames]
  rw [if_pos h]

lemma max_one_eq_ite (t0 : ℤ) : (if t0 ≤ 0 then 1 else t0) = max 1 t0 := by
  rcases le_or_lt t0 0 with h | h
  · rw [if_pos h, max_eq_left (by omega)]
  · rw [if_neg (by omega), max_eq_right (by omega)]

lemma resampleFrames_sample {α : Type} (f0 : α) (rest : List α) (d fps : ℚ)
    (h : pyInt (d * fps) < (((f0 :: rest).length : ℕ) : ℤ)) :
    resampleFrames (f0 :: rest) d fps =
      (List.range (max 1 (pyInt (d * fps))).toNat).map
        (fun i => (f0 :: rest).getD
          (i * (f0 :: rest).length / (max 1 (pyInt (d * fps))).toNat) f0) := by
  have hn : 0 < (f0 :: rest).length := by simp
  simp only [resampleFrames]
  rw [if_neg (not_le.mpr h), max_one_eq_ite]
  refine List.map_congr_left (fun i hi => ?_)
  rw [List.mem_range] at hi
  set t0 : ℤ := pyInt (d * fps) with ht0
  set n : ℕ := (f0 :: rest).length with hn_def
  set T : ℕ := (max 1 t0).toNat with hT
  have htgt : (0 : ℤ) < max 1 t0 := by omega
  have hT1 : 1 ≤ T := by omega
  have hcastT : ((T : ℕ) : ℚ) = ((max 1 t0 : ℤ) : ℚ) := by
    rw [hT]
    exact_mod_cast congrArg (fun z : ℤ => (z : ℚ)) (Int.toNat_of_nonneg (by omega))
  have hq0 : (0 : ℚ) ≤ (i : ℚ) * ((n : ℚ) / ((max 1 t0 : ℤ) : ℚ)) := by
    have hp : (0 : ℚ) < ((max 1 t0 : ℤ) : ℚ) := by exact_mod_cast htgt
    positivity
  have hqcast : (i : ℚ) * ((n : ℚ) / ((max 1 t0 : ℤ) : ℚ))
      = ((i * n : ℕ) : ℚ) / ((T : ℕ) : ℚ) := by
    rw [hcastT]; push_cast; ring
  have hfloor : pyInt ((i : ℚ) * ((n : ℚ) / ((max 1 t0 : ℤ) : ℚ)))
      = ((i * n / T : ℕ) : ℤ) := by
    rw [pyInt_of_nonneg hq0, hqcast]
    have h1 : ⌊((i * n : ℕ) : ℚ) / ((T : ℕ) : ℚ)⌋ =
        (⌊((i * n : ℕ) : ℚ) / ((T : ℕ) : ℚ)⌋₊ : ℤ) := by
      rw [← Int.floor_toNat, Int.toNat_of_nonneg]
      rw [Int.floor_nonneg]
      positivity
    rw [h1, Nat.floor_div_eq_div]
  have hlt : i * n / T < n := by
    rw [Nat.div_lt_iff_lt_mul (by omega)]
    calc i * n < T * n := mul_lt_mul_of_pos_right hi hn
    _ = n * T := mul_comm T n
  rw [hfloor]
  rw [if_neg (by exact_mod_cast not_le.mpr (by exact_mod_cast hlt))]
  congr 1

/-- Every output frame of the resampler comes from the input list. -/
lemma resampleFrames_mem {α : Type} (frames : List α) (d fps : ℚ) :
    ∀ x ∈ resampleFrames frames d fps, x ∈ frames := by
  match frames with
  | [] => intro x hx; simp [resampleFrames] at hx
  | f0 :: rest =>
    intro x hx
    rcases le_or_lt (((f0 :: rest).length : ℕ) : ℤ) (pyInt (d * fps)) with h | h
    · rwa [resampleFrames_keep f0 rest d fps h] at hx
    · rw [resampleFrames_sample f0 rest d fps h] at hx
      rcases List.mem_map.mp hx with ⟨i, _, hix⟩
      rcases lt_or_le (i * (f0 :: rest).length / (max 1 (pyInt (d * fps))).toNat)
          (f0 :: rest).length with hlt | hge
      · rw [← hix, List.getD_eq_getElem _ _ hlt]
        exact List.getElem_mem hlt
      · rw [← hix, List.getD_eq_getElem?_getD, List.getElem?_eq_none (by omega)]
        simp

/-- The resampler never returns an empty list on a non-empty input. -/
lemma resampleFrames_ne_nil {α : Type} (frames : List α) (d fps : ℚ)
    (hne : frames ≠ []) : resampleFrames frames d fps ≠ [] := by
  match frames with
  | [] => exact absurd rfl hne
  | f0 :: rest =>
    rcases le_or_lt (((f0 :: rest).length : ℕ) : ℤ) (pyInt (d * fps)) with h | h
    · rw [resampleFrames_keep f0 rest d fps h]; simp
    · rw [resampleFrames_sample f0 rest d fps h]
      have : (max 1 (pyInt (d * fps))).toNat ≠ 0 := by omega
      simp [List.range_eq_nil, this]

lemma getD_range {n k : ℕ} (h : k < n) (d : ℕ) : (List.range n).getD k d = k := by
  rw [List.getD_eq_getElem _ _ (by simpa using h)]
  exact List.getElem_range k _

lemma sampleIdx_lt {i T n : ℕ} (hi : i < T) (hn : 0 < n) : i * n / T < n := by
  rw [Nat.div_lt_iff_lt_mul (by omega)]
  calc i * n < T * n := mul_lt_mul_of_pos_right hi hn
  _ = n * T := mul_comm T n

lemma resample_range_chain (n : ℕ) (d fps : ℚ) :
    List.Chain' (· ≤ ·) (resampleFrames (List.range n) d fps) := by
  cases n with
  | zero => simp [resampleFrames]
  | succ m =>
    have hcons : List.range (m + 1) = 0 :: (List.range m).map Nat.succ :=
      List.range_succ_eq_map m
    rcases le_or_lt (((List.range (m + 1)).length : ℕ) : ℤ) (pyInt (d * fps))
        with h | h
    · rw [hcons] at h ⊢
      rw [resampleFrames_keep _ _ d fps h, ← hcons]
      exact ((List.pairwise_lt_range (m + 1)).imp le_of_lt).chain'
    · rw [hcons] at h ⊢
      rw [resampleFrames_sample _ _ d fps h, ← hcons]
      rw [List.chain'_map]
      cases hT : (max 1 (pyInt (d * fps))).toNat with
      | zero => simp
      | succ t =>
        rw [List.chain'_range_succ]
        intro k hk
        have hm1 : 0 < m + 1 := Nat.succ_pos m
        simp only [List.length_range]
        rw [getD_range (sampleIdx_lt (by omega) hm1),
          getD_range (sampleIdx_lt (by omega) hm1)]
        exact Nat.div_le_div_right (Nat.mul_le_mul_right _ (by omega))

/-! ## Claim C5 -/

/-- Claim C5, counterexample.  The claim says the resampler targets
`round(clip.duration × gif_fps)` frames and keeps all frames when the clip
has at most that many.  The code computes `int(duration * gif_fps)`, which
truncates: for duration 11/4 s and gif_fps 1 the rounded target is 3, so a
3-frame clip should be returned unchanged, but the code truncates the target
to 2 and subsamples to 2 frames. -/
theorem resample_round_target_cex :
    round ((11/4 : ℚ) * 1) = 3 ∧
    resampleFrames ([0, 1, 2] : List ℕ) (11/4) 1 = [0, 1] ∧
    resampleFrames ([0, 1, 2] : List ℕ) (11/4) 1 ≠ [0, 1, 2] := by
  refine ⟨?_, ?_, ?_⟩ <;> with_unfolding_all decide

/-- Claim C5, amended: for every non-empty clip frame list, GIF resampling
targets `int(clip.duration × gif_fps)` frames (truncation toward zero, not
rounding), with a minimum of 1 applied in the subsampling branch; if the clip
has at most `int(duration × gif_fps)` frames, all frames are kept unchanged;
otherwise the output has exactly `max 1 (int(duration × gif_fps))` frames,
selected at source indices `floor(i·step)` with
`step = frame_count / target_count`, without synthesizing any new frame. -/
theorem resample_trunc_target_spec (α : Type) (f0 : α) (rest : List α)
    (d fps : ℚ) :
    ((((f0 :: rest).length : ℕ) : ℤ) ≤ pyInt (d * fps) →
      resampleFrames (f0 :: rest) d fps = f0 :: rest) ∧
    (pyInt (d * fps) < (((f0 :: rest).length : ℕ) : ℤ) →
      resampleFrames (f0 :: rest) d fps =
        (List.range (max 1 (pyInt (d * fps))).toNat).map
          (fun i => (f0 :: rest).getD
            (i * (f0 :: rest).length / (max 1 (pyInt (d * fps))).toNat) f0) ∧
      (resampleFrames (f0 :: rest) d fps).length =
        (max 1 (pyInt (d * fps))).toNat) ∧
    (∀ x ∈ resampleFrames (f0 :: rest) d fps, x ∈ f0 :: rest) := by
  refine ⟨resampleFrames_keep f0 rest d fps, fun h => ⟨resampleFrames_sample f0 rest d fps h, ?_⟩,
    resampleFrames_mem _ d fps⟩
  rw [resampleFrames_sample f0 rest d fps h]
  simp

/-- Witness for `resample_trunc_target_spec` at duration 11/4, fps 1 and a
3-frame clip. -/
theorem resample_trunc_target_spec_witness :
    (pyInt ((11/4 : ℚ) * 1) < ((([0, 1, 2] : List ℕ).length : ℕ) : ℤ)) ∧
    (resampleFrames ([0, 1, 2] : List ℕ) (11/4) 1 =
      (List.range (max 1 (pyInt ((11/4 : ℚ) * 1))).toNat).map
        (fun i => ([0, 1, 2] : List ℕ).getD
          (i * ([0, 1, 2] : List ℕ).length /
            (max 1 (pyInt ((11/4 : ℚ) * 1))).toNat) 0) ∧
    (resampleFrames ([0, 1, 2] : List ℕ) (11/4) 1).length =
      (max 1 (pyInt ((11/4 : ℚ) * 1))).toNat) :=
  ⟨by with_unfolding_all decide,
   (resample_trunc_target_spec ℕ 0 [1, 2] (11/4) 1).2.1
     (by with_unfolding_all decide)⟩

/-! ## Claim C6 -/

/-- Claim C6, counterexample.  For a 2.0 s clip at gif_fps 10 with 50
source frames the claim says the selected indices are uniformly spaced by
`floor(50/20) = 2`; that would give `0, 2, 4, ..., 38`.  The code instead
takes `int(i * 2.5)`, so the gaps alternate between 2 and 3. -/
theorem resample_uniform_spacing_cex :
    resampleFrames (List.range 50) 2 10 =
      [0, 2, 5, 7, 10, 12, 15, 17, 20, 22, 25, 27, 30, 32, 35, 37, 40, 42, 45, 47] ∧
    resampleFrames (List.range 50) 2 10 ≠ (List.range 20).map (fun i => 2 * i) := by
  constructor <;> with_unfolding_all decide

/-- Claim C6, amended: for a 2.0 s clip at gif_fps 10, the target frame count
is 20; from 50 source frames exactly 20 are selected, at source indices
`floor(i · 50/20) = floor(2.5·i)`, strictly increasing with first index 0
(the spacing alternates between 2 and 3 rather than being a uniform 2). -/
theorem resample_2s_10fps_spec :
    (resampleFrames (List.range 50) 2 10).length = 20 ∧
    resampleFrames (List.range 50) 2 10 =
      (List.range 20).map (fun i => i * 50 / 20) ∧
    List.Chain' (· < ·) (resampleFrames (List.range 50) 2 10) ∧
    (resampleFrames (List.range 50) 2 10).head? = some 0 := by
  have hlit : resampleFrames (List.range 50) 2 10 =
      [0, 2, 5, 7, 10, 12, 15, 17, 20, 22, 25, 27, 30, 32, 35, 37, 40, 42, 45, 47] := by
    with_unfolding_all decide
  refine ⟨?_, ?_, ?_, ?_⟩
  · rw [hlit]; rfl
  · with_unfolding_all decide
  · rw [hlit]
    norm_num [List.chain'_cons, List.chain'_singleton]
  · rw [hlit]; rfl

/-! ## Claim C9 -/

/-- Claim C9: GIF frame resampling is index-safe and shape-preserving.  For
every non-empty input and positive gif_fps the output is non-empty and every
output frame is one of the input frames; instantiated at the identity frame
list `List.range n`, the selected source index sequence is bounded by the
frame count and monotonically non-decreasing. -/
theorem resample_index_safe :
    (∀ (α : Type) (frames : List α) (d fps : ℚ), frames ≠ [] → 0 < fps →
      resampleFrames frames d fps ≠ [] ∧
      ∀ x ∈ resampleFrames frames d fps, x ∈ frames) ∧
    (∀ (n : ℕ) (d fps : ℚ), 0 < fps →
      (∀ i ∈ resampleFrames (List.range n) d fps, i < n) ∧
      List.Chain' (· ≤ ·) (resampleFrames (List.range n) d fps)) := by
  constructor
  · intro α frames d fps hne _
    exact ⟨resampleFrames_ne_nil frames d fps hne, resampleFrames_mem frames d fps⟩
  · intro n d fps _
    refine ⟨fun i hi => ?_, resample_range_chain n d fps⟩
    have hmem := resampleFrames_mem (List.range n) d fps i hi
    simpa using hmem

/-- Witness for `resample_index_safe` at a 1-frame list, a 3-frame identity
list, duration 1 and fps 1. -/
theorem resample_index_safe_witness :
    (resampleFrames ([5] : List ℕ) 1 1 ≠ [] ∧
      ∀ x ∈ resampleFrames ([5] : List ℕ) 1 1, x ∈ ([5] : List ℕ)) ∧
    (∀ i ∈ resampleFrames (List.range 3) 1 1, i < 3) ∧
    List.Chain' (· ≤ ·) (resampleFrames (List.range 3) 1 1) :=
  ⟨resample_index_safe.1 ℕ [5] 1 1 (by decide) (by norm_num),
   (resample_index_safe.2 3 1 1 (by norm_num)).1,
   (resample_index_safe.2 3 1 1 (by norm_num)).2⟩

/-! ## Helper lemmas: keyframe scan -/

/-- Started with no fallback candidate, the demux loop returns the first
keyframe of the first `maxPackets - c` packets both as its result and as the
fallback candidate: the `seek_position_keyframe` is never a different frame. -/
lemma scanPackets_none_eq (tb ts : ℚ) :
    ∀ (ps : List (List DFrame)) (c : ℕ), c ≤ maxPackets →
      scanPackets tb ts ps c none =
        ((((ps.take (maxPackets - c)).flatten).find? (fun f => f.key_frame)).map
            (fun f => (f, frameTime tb ts f)),
         (((ps.take (maxPackets - c)).flatten).find? (fun f => f.key_frame)).map
            (fun f => (f, frameTime tb ts f))) := by
  intro ps
  induction ps with
  | nil => intro c hc; simp [scanPackets]
  | cons p ps ih =>
    intro c hc
    by_cases h15 : maxPackets < c + 1
    · have hc0 : maxPackets - c = 0 := by omega
      simp [scanPackets, h15, hc0]
    · have hsub : maxPackets - c = (maxPackets - (c + 1)) + 1 := by omega
      rw [scanPackets, if_neg h15]
      cases hf : p.find? (fun f => f.key_frame) with
      | some f =>
        simp [hsub, List.take_succ_cons, List.find?_append, hf]
      | none =>
        rw [ih (c + 1) (by omega)]
        simp [hsub, List.take_succ_cons, List.find?_append, hf]

/-! ## Claim C1 -/

/-- Claim C1, counterexample.  After the backward seek the demuxed stream
holds a keyframe at pts 100 (the seek-landing keyframe, time 10.0 s) in the
first packet and a keyframe at pts 200 (time 20.0 s) in the second packet,
well within the 15-packet budget.  The claim says a keyframe strictly after
the seek-landing one is used when found within the budget, but the code
returns the landing keyframe itself: the inner decode loop exits at the very
first keyframe it sees. -/
theorem extract_next_keyframe_cex :
    extract_single_frame (1/10) (19/2)
        [[⟨true, some 100⟩], [⟨true, some 200⟩]] [] =
      .ok (⟨true, some 100⟩, 10) ∧
    (⟨true, some 200⟩ : DFrame) ∈
      (([[⟨true, some 100⟩], [⟨true, some 200⟩]] :
        List (List DFrame)).take maxPackets).flatten ∧
    (⟨true, some 200⟩ : DFrame).key_frame = true ∧
    frameTime (1/10) (19/2) ⟨true, some 100⟩ <
      frameTime (1/10) (19/2) ⟨true, some 200⟩ ∧
    extract_single_frame (1/10) (19/2)
        [[⟨true, some 100⟩], [⟨true, some 200⟩]] [] ≠
      .ok (⟨true, some 200⟩, frameTime (1/10) (19/2) ⟨true, some 200⟩) := by
  refine ⟨?_, ?_, ?_, ?_, ?_⟩ <;> with_unfolding_all decide

/-- Claim C1, amended: the keyframe search scans at most 15 demuxed packets
after the backward seek and returns the FIRST keyframe it encounters — the
seek-landing keyframe itself; a keyframe strictly after the landing one is
never preferred, and the separate seek-landing fallback candidate is never a
distinct frame.  Only when no keyframe at all decodes within the budget does
the code rewind to position 0 and return the first keyframe of the whole
stream, erroring if there is none. -/
theorem extract_single_frame_spec (tb ts : ℚ)
    (afterSeek fromStart : List (List DFrame)) :
    extract_single_frame tb ts afterSeek fromStart =
      match ((afterSeek.take maxPackets).flatten).find?
          (fun f => f.key_frame) with
      | some f => .ok (f, frameTime tb ts f)
      | none =>
        match fromStart.flatten.find? (fun f => f.key_frame) with
        | some f => .ok (f, frameTime tb ts f)
        | none => .error "Could not find any keyframe starting from timestamp" := by
  unfold extract_single_frame
  rw [scanPackets_none_eq tb ts afterSeek 0 (by omega)]
  simp only [Nat.sub_zero]
  cases hf : ((afterSeek.take maxPackets).flatten).find?
      (fun f => f.key_frame) with
  | some f => simp
  | none => simp

/-! ## Claim C2 -/

/-- Claim C2: the static frame path raises the invalid-range `ValueError`
before any decode for skip_start=60, skip_end=50, but the GIF clip path
performs no skip validation at all: it computes all 20 clip timestamps (with
a negative interval, starting at 60 and decreasing) and proceeds straight to
clip extraction and decoding. -/
theorem gif_path_skips_validation :
    extractFramesSchedule 4 5 640 360 1920 1080 60 50 100 =
      .error "skip_start_percent + skip_end_percent must be less than 100" ∧
    (gifClipTimestamps 4 5 60 50 100).length = 20 ∧
    (gifClipTimestamps 4 5 60 50 100).head? = some 60 ∧
    (gifClipTimestamps 4 5 60 50 100).getD 1 0 = 119/2 := by
  refine ⟨?_, ?_, ?_, ?_⟩ <;> with_unfolding_all decide

/-! ## Claim C3 -/

/-- Claim C3: for every duration, valid skip percentages and positive grid,
the scheduler returns exactly `columns*rows` timestamps
`start + i*interval` with `start = D*s/100`, `end = D*(1-e/100)` and
`interval = (end-start)/N`; in particular for D=600, s=e=5, 4x5 it returns
the 20 timestamps `30 + 27*i`, all inside `[30, 570)`. -/
theorem extract_frames_schedule_spec :
    (∀ (cols rows tw th vw vh : ℤ) (ss se D : ℚ),
      0 < cols * rows → ¬(th ≤ 0 ∧ vh = 0) →
      0 ≤ ss → ss < 100 → 0 ≤ se → se < 100 → ss + se < 100 →
      extractFramesSchedule cols rows tw th vw vh ss se D =
        .ok ((List.range (cols * rows).toNat).map
          (fun (i : ℕ) => D * (ss / 100) + (i : ℚ) *
            ((D * (1 - se / 100) - D * (ss / 100)) / ((cols * rows : ℤ) : ℚ))))) ∧
    (extractFramesSchedule 4 5 640 360 1920 1080 5 5 600 =
      .ok ((List.range 20).map (fun (i : ℕ) => 30 + (i : ℚ) * 27)) ∧
     ((List.range 20).map (fun (i : ℕ) => 30 + (i : ℚ) * 27)).length = 20 ∧
     ∀ t ∈ (List.range 20).map (fun (i : ℕ) => 30 + (i : ℚ) * 27),
       30 ≤ t ∧ t < 570) := by
  constructor
  · intro cols rows tw th vw vh ss se D hN hth hss0 hss1 hse0 hse1 hsum
    have h100 : (0 : ℚ) < 100 := by norm_num
    unfold extractFramesSchedule
    rw [if_neg (not_le.mpr hN), if_neg hth]
    rw [if_neg ?hs, if_neg ?he, if_neg ?hsum2]
    case hs =>
      push_neg
      refine ⟨div_nonneg hss0 (by norm_num), ?_⟩
      rw [div_lt_one h100]
      exact hss1
    case he =>
      push_neg
      refine ⟨div_nonneg hse0 (by norm_num), ?_⟩
      rw [div_lt_one h100]
      exact hse1
    case hsum2 =>
      rw [not_le, div_add_div_same, div_lt_one h100]
      exact hsum
  · refine ⟨by with_unfolding_all decide, by with_unfolding_all decide, ?_⟩
    intro t ht
    rcases List.mem_map.mp ht with ⟨i, hi, rfl⟩
    rw [List.mem_range] at hi
    constructor
    · have h0 : (0 : ℚ) ≤ (i : ℚ) * 27 := by positivity
      linarith
    · have h19 : (i : ℚ) ≤ 19 := by exact_mod_cast Nat.le_of_lt_succ hi
      nlinarith

/-- Witness for `extract_frames_schedule_spec` at a 2x2 grid, skips 0/0,
duration 10. -/
theorem extract_frames_schedule_spec_witness :
    ((0 : ℤ) < 2 * 2 ∧ ¬((360 : ℤ) ≤ 0 ∧ (1080 : ℤ) = 0) ∧
      (0 : ℚ) ≤ 0 ∧ (0 : ℚ) < 100 ∧ (0 : ℚ) + 0 < 100) ∧
    extractFramesSchedule 2 2 640 360 1920 1080 0 0 10 =
      .ok ((List.range ((2 * 2 : ℤ)).toNat).map
        (fun (i : ℕ) => 10 * ((0 : ℚ) / 100) + (i : ℚ) *
          ((10 * (1 - (0 : ℚ) / 100) - 10 * ((0 : ℚ) / 100)) /
            ((2 * 2 : ℤ) : ℚ)))) :=
  ⟨⟨by norm_num, by norm_num, by norm_num, by norm_num, by norm_num⟩,
   extract_frames_schedule_spec.1 2 2 640 360 1920 1080 0 0 10
     (by norm_num) (by norm_num) (by norm_num) (by norm_num) (by norm_num)
     (by norm_num) (by norm_num)⟩

/-! ## Helper lemmas: sorted rule selection -/

instance : IsTotal DurationGridRule
    (fun a b => a.max_duration ≤ b.max_duration) :=
  ⟨fun a b => le_total a.max_duration b.max_duration⟩

instance : IsTrans DurationGridRule
    (fun a b => a.max_duration ≤ b.max_duration) :=
  ⟨fun _ _ _ h₁ h₂ => le_trans h₁ h₂⟩

/-- On a list sorted by `key`, `find?` returns a hit with minimal key among
all hits. -/
lemma find?_sorted_min {α : Type} (key : α → ℚ) {l : List α} {p : α → Bool}
    {r : α} (hsort : l.Pairwise (fun a b => key a ≤ key b))
    (hfind : l.find? p = some r) :
    p r = true ∧ r ∈ l ∧ ∀ r2 ∈ l, p r2 = true → key r ≤ key r2 := by
  induction l with
  | nil => simp at hfind
  | cons x xs ih =>
    rcases List.pairwise_cons.mp hsort with ⟨hx_le, htail⟩
    by_cases hx : p x = true
    · rw [List.find?_cons_of_pos _ hx] at hfind
      obtain rfl : x = r := Option.some.inj hfind
      refine ⟨hx, List.mem_cons_self x xs, fun r2 hr2 _ => ?_⟩
      rcases List.mem_cons.mp hr2 with h | h
      · rw [h]
      · exact hx_le r2 h
    · rw [List.find?_cons_of_neg _ (by simpa using hx)] at hfind
      rcases ih htail hfind with ⟨hp, hmem, hmin⟩
      refine ⟨hp, List.mem_cons_of_mem x hmem, fun r2 hr2 hp2 => ?_⟩
      rcases List.mem_cons.mp hr2 with h | h
      · rw [h] at hp2; exact absurd hp2 hx
      · exact hmin r2 h hp2

/-! ## Claim C4 -/

/-- Claim C4: auto-grid rule resolution.  With auto-grid disabled or no
rules, the static columns/rows are returned.  Otherwise rules with
`max_duration > 0` are evaluated in ascending threshold order and the first
one with `duration ≤ max_duration` wins (the returned rule is a matching
rule of minimal threshold); when none matches, the first rule with
`max_duration < 0` applies, or failing that the static columns/rows.  The
four concrete rulings from the spec hold. -/
theorem get_grid_size_spec :
    (∀ (cfg : GridConfig) (d : ℚ),
      (¬cfg.auto_grid ∨ cfg.duration_grid_rules = []) →
      get_grid_size_by_duration cfg d = (cfg.columns, cfg.rows)) ∧
    (∀ (cfg : GridConfig) (d : ℚ), cfg.auto_grid →
      cfg.duration_grid_rules ≠ [] →
      (∃ r0, r0 ∈ cfg.duration_grid_rules ∧ 0 < r0.max_duration ∧
        d ≤ r0.max_duration) →
      ∃ r, r ∈ cfg.duration_grid_rules ∧ 0 < r.max_duration ∧
        d ≤ r.max_duration ∧
        get_grid_size_by_duration cfg d = (r.columns, r.rows) ∧
        ∀ r2 ∈ cfg.duration_grid_rules, 0 < r2.max_duration →
          d ≤ r2.max_duration → r.max_duration ≤ r2.max_duration) ∧
    (∀ (cfg : GridConfig) (d : ℚ), cfg.auto_grid →
      cfg.duration_grid_rules ≠ [] →
      (∀ r ∈ cfg.duration_grid_rules, 0 < r.max_duration →
        ¬d ≤ r.max_duration) →
      get_grid_size_by_duration cfg d =
        match cfg.duration_grid_rules.find?
            (fun r => decide (r.max_duration < 0)) with
        | some dr => (dr.columns, dr.rows)
        | none => (cfg.columns, cfg.rows)) ∧
    (get_grid_size_by_duration
        ⟨true, [⟨120, 2, 2⟩, ⟨600, 3, 3⟩, ⟨1800, 4, 4⟩, ⟨-1, 5, 5⟩], 4, 5⟩ 90
        = (2, 2) ∧
     get_grid_size_by_duration
        ⟨true, [⟨120, 2, 2⟩, ⟨600, 3, 3⟩, ⟨1800, 4, 4⟩, ⟨-1, 5, 5⟩], 4, 5⟩ 600
        = (3, 3) ∧
     get_grid_size_by_duration
        ⟨true, [⟨120, 2, 2⟩, ⟨600, 3, 3⟩, ⟨1800, 4, 4⟩, ⟨-1, 5, 5⟩], 4, 5⟩ 700
        = (4, 4) ∧
     get_grid_size_by_duration
        ⟨true, [⟨120, 2, 2⟩, ⟨600, 3, 3⟩, ⟨1800, 4, 4⟩, ⟨-1, 5, 5⟩], 4, 5⟩ 5000
        = (5, 5)) := by
  refine ⟨?_, ?_, ?_, ?_, ?_, ?_, ?_⟩
  · intro cfg d hdis
    unfold get_grid_size_by_duration
    rw [if_pos hdis]
  · intro cfg d hauto hne ⟨r0, hr0mem, hr0pos, hr0le⟩
    have hcond : ¬(¬cfg.auto_grid ∨ cfg.duration_grid_rules = []) := by
      push_neg; exact ⟨by simpa using hauto, hne⟩
    have hr0lim : r0 ∈ cfg.duration_grid_rules.filter
        (fun r => decide (0 < r.max_duration)) :=
      List.mem_filter.mpr ⟨hr0mem, by simpa using hr0pos⟩
    have hperm := List.perm_insertionSort
      (fun a b : DurationGridRule => a.max_duration ≤ b.max_duration)
      (cfg.duration_grid_rules.filter (fun r => decide (0 < r.max_duration)))
    have hr0sorted : r0 ∈ (cfg.duration_grid_rules.filter
        (fun r => decide (0 < r.max_duration))).insertionSort
        (fun a b => a.max_duration ≤ b.max_duration) :=
      (hperm.mem_iff).mpr hr0lim
    cases hfind : ((cfg.duration_grid_rules.filter
        (fun r => decide (0 < r.max_duration))).insertionSort
        (fun a b => a.max_duration ≤ b.max_duration)).find?
        (fun r => decide (d ≤ r.max_duration)) with
    | none =>
      exfalso
      exact (by simpa using
        (List.find?_eq_none.mp hfind r0 hr0sorted) : ¬d ≤ r0.max_duration) hr0le
    | some r =>
      have hsorted := List.sorted_insertionSort
        (fun a b : DurationGridRule => a.max_duration ≤ b.max_duration)
        (cfg.duration_grid_rules.filter (fun r => decide (0 < r.max_duration)))
      rcases find?_sorted_min (fun r : DurationGridRule => r.max_duration)
          hsorted hfind with ⟨hp, hmem, hmin⟩
      have hrlim := (hperm.mem_iff).mp hmem
      rcases List.mem_filter.mp hrlim with ⟨hrmem, hrpos⟩
      refine ⟨r, hrmem, by simpa using hrpos, by simpa using hp, ?_, ?_⟩
      · simp only [get_grid_size_by_duration]
        rw [if_neg hcond, hfind]
      · intro r2 hr2mem hr2pos hr2le
        have hr2sorted : r2 ∈ (cfg.duration_grid_rules.filter
            (fun r => decide (0 < r.max_duration))).insertionSort
            (fun a b => a.max_duration ≤ b.max_duration) :=
          (hperm.mem_iff).mpr
            (List.mem_filter.mpr ⟨hr2mem, by simpa using hr2pos⟩)
        exact hmin r2 hr2sorted (by simpa using hr2le)
  · intro cfg d hauto hne hnone
    have hcond : ¬(¬cfg.auto_grid ∨ cfg.duration_grid_rules = []) := by
      push_neg; exact ⟨by simpa using hauto, hne⟩
    have hperm := List.perm_insertionSort
      (fun a b : DurationGridRule => a.max_duration ≤ b.max_duration)
      (cfg.duration_grid_rules.filter (fun r => decide (0 < r.max_duration)))
    have hfind : ((cfg.duration_grid_rules.filter
        (fun r => decide (0 < r.max_duration))).insertionSort
        (fun a b => a.max_duration ≤ b.max_duration)).find?
        (fun r => decide (d ≤ r.max_duration)) = none := by
      rw [List.find?_eq_none]
      intro r hr
      rcases List.mem_filter.mp ((hperm.mem_iff).mp hr) with ⟨hrmem, hrpos⟩
      simpa using hnone r hrmem (by simpa using hrpos)
    simp only [get_grid_size_by_duration]
    rw [if_neg hcond, hfind]
  · with_unfolding_all decide
  · with_unfolding_all decide
  · with_unfolding_all decide
  · with_unfolding_all decide

/-- Witness for `get_grid_size_spec`: the disabled-auto-grid clause at a
concrete config, and the minimal-matching-rule clause at the spec's rule set
with duration 90. -/
theorem get_grid_size_spec_witness :
    get_grid_size_by_duration ⟨false, [], 7, 9⟩ 42 = (7, 9) ∧
    (∃ r, r ∈ ([⟨120, 2, 2⟩, ⟨600, 3, 3⟩, ⟨1800, 4, 4⟩, ⟨-1, 5, 5⟩] :
        List DurationGridRule) ∧ 0 < r.max_duration ∧ (90 : ℚ) ≤ r.max_duration ∧
      get_grid_size_by_duration
        ⟨true, [⟨120, 2, 2⟩, ⟨600, 3, 3⟩, ⟨1800, 4, 4⟩, ⟨-1, 5, 5⟩], 4, 5⟩ 90
        = (r.columns, r.rows) ∧
      ∀ r2 ∈ ([⟨120, 2, 2⟩, ⟨600, 3, 3⟩, ⟨1800, 4, 4⟩, ⟨-1, 5, 5⟩] :
          List DurationGridRule), 0 < r2.max_duration →
        (90 : ℚ) ≤ r2.max_duration → r.max_duration ≤ r2.max_duration) :=
  ⟨get_grid_size_spec.1 ⟨false, [], 7, 9⟩ 42 (Or.inl (by decide)),
   get_grid_size_spec.2.1
     ⟨true, [⟨120, 2, 2⟩, ⟨600, 3, 3⟩, ⟨1800, 4, 4⟩, ⟨-1, 5, 5⟩], 4, 5⟩ 90
     (by decide) (by decide)
     ⟨⟨120, 2, 2⟩, by refine ⟨by decide, ?_, ?_⟩ <;> with_unfolding_all decide⟩⟩

/-! ## Helper lemmas: completion-order invariance -/

/-- Two sorted permutations of each other are equal when tied keys force
equal elements. -/
lemma sorted_key_unique {α : Type} (key : α → ℚ) :
    ∀ (l₁ l₂ : List α), l₁.Perm l₂ →
      l₁.Pairwise (fun a b => key a ≤ key b) →
      l₂.Pairwise (fun a b => key a ≤ key b) →
      (∀ a ∈ l₁, ∀ b ∈ l₁, key a = key b → a = b) → l₁ = l₂ := by
  intro l₁
  induction l₁ with
  | nil => intro l₂ hp _ _ _; simpa using hp.nil_eq.symm
  | cons x xs ih =>
    intro l₂ hp hs₁ hs₂ hties
    cases l₂ with
    | nil => exact absurd hp.symm (by simp)
    | cons y ys =>
      rcases List.pairwise_cons.mp hs₁ with ⟨hx_le, hxs⟩
      rcases List.pairwise_cons.mp hs₂ with ⟨hy_le, hys⟩
      have hy_mem : y ∈ x :: xs := hp.mem_iff.mpr (List.mem_cons_self y ys)
      have hx_mem : x ∈ y :: ys := hp.mem_iff.mp (List.mem_cons_self x xs)
      have hkey : key x = key y := by
        rcases List.mem_cons.mp hy_mem with h | h
        · rw [h]
        · rcases List.mem_cons.mp hx_mem with h2 | h2
          · rw [h2]
          · exact le_antisymm (hx_le y h) (hy_le x h2)
      have hxy : x = y := hties x (List.mem_cons_self x xs) y hy_mem hkey
      subst hxy
      have htail : xs.Perm ys := hp.cons_inv
      rw [ih ys htail hxs hys
        (fun a ha b hb hk =>
          hties a (List.mem_cons_of_mem x ha) b (List.mem_cons_of_mem x hb) hk)]

/-- Filling write-once slots: after folding index writes over `order`, slot
`j` holds `result j` exactly when `j` occurred in `order` (and was in
range). -/
lemma foldl_set_getElem? {α : Type} (result : ℕ → α) :
    ∀ (order : List ℕ) (slots : List (Option α)) (j : ℕ),
      (order.foldl (fun s i => s.set i (some (result i))) slots)[j]? =
        if j ∈ order ∧ j < slots.length then some (some (result j))
        else slots[j]? := by
  intro order
  induction order with
  | nil => intro slots j; simp
  | cons i rest ih =>
    intro slots j
    rw [List.foldl_cons, ih]
    simp only [List.length_set, List.getElem?_set, List.mem_cons]
    by_cases hj : j < slots.length
    · by_cases hrest : j ∈ rest
      · rw [if_pos ⟨hrest, hj⟩, if_pos ⟨Or.inr hrest, hj⟩]
      · rw [if_neg (fun h => hrest h.1)]
        by_cases hij : i = j
        · subst hij
          rw [if_pos rfl, if_pos hj, if_pos ⟨Or.inl rfl, hj⟩]
        · rw [if_neg hij, if_neg (fun h => ?_)]
          rcases h.1 with h1 | h1
          · exact hij h1.symm
          · exact hrest h1
    · have hnone : slots[j]? = none := List.getElem?_eq_none (by omega)
      rw [if_neg (fun h => hj h.2)]
      by_cases hij : i = j
      · subst hij
        rw [if_pos rfl, if_neg hj, if_neg (fun h => hj h.2), hnone]
      · rw [if_neg hij, if_neg (fun h => hj h.2)]

/-- The static assembly result is independent of the completion order. -/
lemma assembleSlots_eq {α : Type} (n : ℕ) (result : ℕ → α) (order : List ℕ)
    (hperm : order.Perm (List.range n)) :
    assembleSlots n result order =
      (List.range n).map (fun i => some (result i)) := by
  apply List.ext_getElem?
  intro j
  unfold assembleSlots
  rw [foldl_set_getElem? result order (List.replicate n none) j]
  have hmem : j ∈ order ↔ j < n := by rw [hperm.mem_iff, List.mem_range]
  by_cases hj : j < n
  · rw [if_pos ⟨hmem.mpr hj, by simpa using hj⟩]
    rw [List.getElem?_map, List.getElem?_range hj]
    rfl
  · rw [if_neg (fun h => hj (by simpa using h.2))]
    rw [List.getElem?_eq_none (by simpa using hj),
      List.getElem?_eq_none (by simp; omega)]

instance : IsTotal PyVideoClip (fun a b => a.timestamp ≤ b.timestamp) :=
  ⟨fun a b => le_total a.timestamp b.timestamp⟩

instance : IsTrans PyVideoClip (fun a b => a.timestamp ≤ b.timestamp) :=
  ⟨fun _ _ _ h₁ h₂ => le_trans h₁ h₂⟩

/-- The sorted clip list is independent of the completion order. -/
lemma collectClips_order_invariant (w : ℚ → PyVideoClip) (ts : List ℚ)
    (hw : ∀ t, (w t).timestamp = t) (o₁ o₂ : List ℕ) (hp : o₁.Perm o₂) :
    collectClips w ts o₁ = collectClips w ts o₂ := by
  unfold collectClips
  have hmap : (o₁.map (fun i => w (ts.getD i 0))).Perm
      (o₂.map (fun i => w (ts.getD i 0))) := hp.map _
  have hperm :
      ((o₁.map (fun i => w (ts.getD i 0))).insertionSort
        (fun a b => a.timestamp ≤ b.timestamp)).Perm
      ((o₂.map (fun i => w (ts.getD i 0))).insertionSort
        (fun a b => a.timestamp ≤ b.timestamp)) :=
    ((List.perm_insertionSort _ _).trans hmap).trans
      (List.perm_insertionSort _ _).symm
  have hties : ∀ a ∈ (o₁.map (fun i => w (ts.getD i 0))).insertionSort
      (fun a b => a.timestamp ≤ b.timestamp),
      ∀ b ∈ (o₁.map (fun i => w (ts.getD i 0))).insertionSort
        (fun a b => a.timestamp ≤ b.timestamp),
      PyVideoClip.timestamp a = PyVideoClip.timestamp b → a = b := by
    intro a ha b hb hk
    rcases List.mem_map.mp ((List.perm_insertionSort _ _).mem_iff.mp ha)
      with ⟨i, _, rfl⟩
    rcases List.mem_map.mp ((List.perm_insertionSort _ _).mem_iff.mp hb)
      with ⟨j, _, rfl⟩
    rw [hw, hw] at hk
    rw [hk]
  exact sorted_key_unique PyVideoClip.timestamp _ _ hperm
    (List.sorted_insertionSort _ _) (List.sorted_insertionSort _ _) hties

/-! ## Claim C7 -/

/-- Claim C7: the final extraction output is invariant under any permutation
of worker completion order.  Static path: filling the pre-allocated slots in
any completion order that is a permutation of the task indices yields the
index-ordered result list (so every slot is filled).  Clip path: since every
worker's clip is a function of its task timestamp and carries it in its
`timestamp` field, any two completion orders that are permutations of each
other produce identical sorted clip lists. -/
theorem extraction_order_invariant :
    (∀ (α : Type) (n : ℕ) (result : ℕ → α) (order : List ℕ),
      order.Perm (List.range n) →
      assembleSlots n result order =
        (List.range n).map (fun i => some (result i))) ∧
    (∀ (w : ℚ → PyVideoClip) (ts : List ℚ) (o₁ o₂ : List ℕ),
      (∀ t, (w t).timestamp = t) → o₁.Perm o₂ →
      collectClips w ts o₁ = collectClips w ts o₂) :=
  ⟨fun _ n result order hperm => assembleSlots_eq n result order hperm,
   fun w ts o₁ o₂ hw hp => collectClips_order_invariant w ts hw o₁ o₂ hp⟩

/-- Witness for `extraction_order_invariant`: two tasks completed in reverse
order still fill the slots in index order, and the clip lists of two
opposite completion orders coincide. -/
theorem extraction_order_invariant_witness :
    assembleSlots 2 (fun i : ℕ => i + 10) [1, 0] =
      (List.range 2).map (fun i => some (i + 10)) ∧
    collectClips (fun t => ⟨t, t + 1, [], t⟩) [3, 1] [0, 1] =
      collectClips (fun t => ⟨t, t + 1, [], t⟩) [3, 1] [1, 0] :=
  ⟨extraction_order_invariant.1 ℕ 2 (fun i => i + 10) [1, 0] (by decide),
   extraction_order_invariant.2 (fun t => ⟨t, t + 1, [], t⟩) [3, 1] [0, 1] [1, 0]
     (fun _ => rfl) (by decide)⟩

/-! ## Helper lemmas: GridLayout -/

lemma add_cell_ok_shape {l l2 : GridLayout} {row col rs cs idx : ℤ}
    (h : l.add_cell row col rs cs idx = .ok l2) :
    l2.rows = l.rows ∧ l2.cols = l.cols ∧
    l2.cells = l.cells ++ [⟨row, col, rs, cs, idx⟩] ∧
    0 ≤ row ∧ row < l.rows ∧ 0 ≤ col ∧ col < l.cols ∧
    row + rs ≤ l.rows ∧ col + cs ≤ l.cols := by
  unfold GridLayout.add_cell at h
  by_cases h1 : row < 0 ∨ l.rows ≤ row
  · rw [if_pos h1] at h; exact absurd h (by simp)
  · rw [if_neg h1] at h
    by_cases h2 : col < 0 ∨ l.cols ≤ col
    · rw [if_pos h2] at h; exact absurd h (by simp)
    · rw [if_neg h2] at h
      by_cases h3 : l.rows < row + rs
      · rw [if_pos h3] at h; exact absurd h (by simp)
      · rw [if_neg h3] at h
        by_cases h4 : l.cols < col + cs
        · rw [if_pos h4] at h; exact absurd h (by simp)
        · rw [if_neg h4] at h
          obtain rfl := Except.ok.inj h
          refine ⟨rfl, rfl, rfl, ?_, ?_, ?_, ?_, ?_, ?_⟩ <;> omega

lemma add_cell_ok_of_bounds (l : GridLayout) (row col rs cs idx : ℤ)
    (hb : 0 ≤ row ∧ row < l.rows ∧ 0 ≤ col ∧ col < l.cols ∧
      row + rs ≤ l.rows ∧ col + cs ≤ l.cols) :
    l.add_cell row col rs cs idx =
      .ok { l with cells := l.cells ++ [⟨row, col, rs, cs, idx⟩] } := by
  unfold GridLayout.add_cell
  rw [if_neg (by omega), if_neg (by omega), if_neg (by omega), if_neg (by omega)]

lemma applyOps_invariant (r c : ℤ) :
    ∀ (ops : List AddOp) (l0 l : GridLayout),
      l0.applyOps ops = .ok l →
      l0.rows = r → l0.cols = c →
      (∀ cell ∈ l0.cells, CellInBounds l0 cell) →
      l.rows = r ∧ l.cols = c ∧ ∀ cell ∈ l.cells, CellInBounds l cell := by
  intro ops
  induction ops with
  | nil =>
    intro l0 l h hr hc hinv
    obtain rfl := Except.ok.inj h
    exact ⟨hr, hc, hinv⟩
  | cons op ops ih =>
    intro l0 l h hr hc hinv
    unfold GridLayout.applyOps at h
    cases hadd : l0.add_cell op.row op.col op.row_span op.col_span op.index with
    | error e => rw [hadd] at h; exact absurd h (by simp)
    | ok l1 =>
      rw [hadd] at h
      rcases add_cell_ok_shape hadd with
        ⟨h1r, h1c, h1cells, hb1, _, hb3, _, hb5, hb6⟩
      refine ih l1 l h (by rw [h1r, hr]) (by rw [h1c, hc]) ?_
      intro cell hcell
      rw [h1cells] at hcell
      rcases List.mem_append.mp hcell with hold | hnew
      · rcases hinv cell hold with ⟨i1, i2, i3, i4⟩
        exact ⟨i1, by rw [h1r]; exact i2, i3, by rw [h1c]; exact i4⟩
      · rw [List.mem_singleton.mp hnew]
        exact ⟨hb1, by rw [h1r]; exact hb5, hb3, by rw [h1c]; exact hb6⟩

lemma get_cell_of_find?_some {l : GridLayout} {i : ℤ} {c2 : GridCell}
    (hfind : l.cells.find? (fun c => c.index == i) = some c2) :
    l.get_cell i = some c2 := by
  unfold GridLayout.get_cell
  rw [hfind]

lemma get_cell_of_find?_none {l : GridLayout} {i : ℤ}
    (hfind : l.cells.find? (fun c => c.index == i) = none) :
    l.get_cell i =
      (if 0 ≤ i ∧ i < (l.cells.length : ℤ) then
        match l.cells[i.toNat]? with
        | some c => if c.index == -1 then some c else none
        | none => none
      else none) := by
  unfold GridLayout.get_cell
  rw [hfind]

lemma get_cell_mem {l : GridLayout} {i : ℤ} {c : GridCell}
    (h : l.get_cell i = some c) : c ∈ l.cells := by
  cases hfind : l.cells.find? (fun c2 => c2.index == i) with
  | some c2 =>
    rw [get_cell_of_find?_some hfind] at h
    obtain rfl := Option.some.inj h
    exact List.mem_of_find?_eq_some hfind
  | none =>
    rw [get_cell_of_find?_none hfind] at h
    split_ifs at h with hb
    · cases hget : l.cells[i.toNat]? with
      | none =>
        simp only [hget] at h
        exact absurd h (by simp)
      | some c2 =>
        simp only [hget] at h
        split_ifs at h with hidx
        obtain rfl := Option.some.inj h
        exact List.getElem?_mem hget

lemma get_cell_none_iff (l : GridLayout) (i : ℤ) :
    l.get_cell i = none ↔
      (∀ c ∈ l.cells, c.index ≠ i) ∧
      ((0 ≤ i ∧ i < (l.cells.length : ℤ)) →
        ∀ c : GridCell, l.cells[i.toNat]? = some c → c.index ≠ -1) := by
  cases hfind : l.cells.find? (fun c2 => c2.index == i) with
  | some c2 =>
    rw [get_cell_of_find?_some hfind]
    have hmem := List.mem_of_find?_eq_some hfind
    have hp : c2.index = i := by simpa using List.find?_some hfind
    constructor
    · intro h; exact absurd h (by simp)
    · intro ⟨hall, _⟩; exact absurd hp (hall c2 hmem)
  | none =>
    have hval := get_cell_of_find?_none hfind
    have hall : ∀ c ∈ l.cells, c.index ≠ i := by
      intro c2 hc2
      simpa using List.find?_eq_none.mp hfind c2 hc2
    by_cases hb : 0 ≤ i ∧ i < (l.cells.length : ℤ)
    · rw [if_pos hb] at hval
      by_cases hnone : l.cells[i.toNat]? = none
      · simp only [hnone] at hval
        rw [hval]
        constructor
        · intro _
          refine ⟨hall, fun _ c3 hc3 => ?_⟩
          rw [hnone] at hc3
          exact absurd hc3 (by simp)
        · intro _; rfl
      · obtain ⟨c2, hget⟩ := Option.ne_none_iff_exists'.mp hnone
        simp only [hget] at hval
        by_cases hidx : c2.index = -1
        · rw [if_pos (by simpa using hidx)] at hval
          rw [hval]
          constructor
          · intro h; exact absurd h (by simp)
          · intro ⟨_, hpos⟩
            exact absurd hidx (hpos hb c2 hget)
        · rw [if_neg (by simpa using hidx)] at hval
          rw [hval]
          constructor
          · intro _
            refine ⟨hall, fun _ c3 hc3 => ?_⟩
            rw [hget] at hc3
            obtain rfl := Option.some.inj hc3
            exact hidx
          · intro _; rfl
    · rw [if_neg hb] at hval
      rw [hval]
      constructor
      · intro _
        exact ⟨hall, fun hb2 => absurd hb2 hb⟩
      · intro _; rfl

/-! ## Claim C10 -/

/-- Claim C10: after any successful sequence of `add_cell` calls starting
from an empty layout, every stored cell satisfies the bounds invariant
`0 ≤ row`, `row + row_span ≤ rows`, `0 ≤ col`, `col + col_span ≤ cols`;
`add_cell` succeeds exactly on in-bounds cells (raising leaves the cell list
untouched, as the cell is appended only after all four checks);
`get_cell` only returns stored (hence in-bounds) cells, and returns `none`
exactly when there is neither an explicit index match nor an in-range
positional cell whose explicit index is unset (-1). -/
theorem grid_layout_invariant :
    (∀ (r c : ℤ) (ops : List AddOp) (l : GridLayout),
      (GridLayout.init r c).applyOps ops = .ok l →
      l.rows = r ∧ l.cols = c ∧ ∀ cell ∈ l.cells, CellInBounds l cell) ∧
    (∀ (l : GridLayout) (row col rs cs idx : ℤ),
      (∃ l2, l.add_cell row col rs cs idx = .ok l2 ∧
          l2 = { l with cells := l.cells ++ [⟨row, col, rs, cs, idx⟩] }) ↔
        (0 ≤ row ∧ row < l.rows ∧ 0 ≤ col ∧ col < l.cols ∧
          row + rs ≤ l.rows ∧ col + cs ≤ l.cols)) ∧
    (∀ (l : GridLayout) (i : ℤ) (c : GridCell),
      l.get_cell i = some c → c ∈ l.cells) ∧
    (∀ (l : GridLayout) (i : ℤ),
      l.get_cell i = none ↔
        (∀ c ∈ l.cells, c.index ≠ i) ∧
        ((0 ≤ i ∧ i < (l.cells.length : ℤ)) →
          ∀ c : GridCell, l.cells[i.toNat]? = some c → c.index ≠ -1)) := by
  refine ⟨?_, ?_, ?_, ?_⟩
  · intro r c ops l h
    exact applyOps_invariant r c ops (GridLayout.init r c) l h rfl rfl
      (by intro cell hcell; exact absurd hcell (by simp [GridLayout.init]))
  · intro l row col rs cs idx
    constructor
    · rintro ⟨l2, hok, _⟩
      rcases add_cell_ok_shape hok with ⟨_, _, _, hb⟩
      exact ⟨hb.1, hb.2.1, hb.2.2.1, hb.2.2.2.1, hb.2.2.2.2.1, hb.2.2.2.2.2⟩
    · intro hb
      exact ⟨_, add_cell_ok_of_bounds l row col rs cs idx
        ⟨hb.1, hb.2.1, hb.2.2.1, hb.2.2.2.1, hb.2.2.2.2.1, hb.2.2.2.2.2⟩, rfl⟩
  · intro l i c h
    exact get_cell_mem h
  · intro l i
    exact get_cell_none_iff l i

/-- Witness for `grid_layout_invariant`: a 3x3 layout built by two
successful `add_cell` calls keeps both cells in bounds, and `get_cell`
behaves as characterized on it. -/
theorem grid_layout_invariant_witness :
    ((GridLayout.mk 3 3 [⟨0, 0, 2, 2, -1⟩, ⟨2, 2, 1, 1, 5⟩]).rows = 3 ∧
      (GridLayout.mk 3 3 [⟨0, 0, 2, 2, -1⟩, ⟨2, 2, 1, 1, 5⟩]).cols = 3 ∧
      ∀ cell ∈ (GridLayout.mk 3 3 [⟨0, 0, 2, 2, -1⟩, ⟨2, 2, 1, 1, 5⟩]).cells,
        CellInBounds (GridLayout.mk 3 3 [⟨0, 0, 2, 2, -1⟩, ⟨2, 2, 1, 1, 5⟩]) cell) ∧
    ((GridLayout.mk 3 3 [⟨0, 0, 2, 2, -1⟩]).get_cell 7 = none ↔
      (∀ c ∈ (GridLayout.mk 3 3 [⟨0, 0, 2, 2, -1⟩]).cells, c.index ≠ 7) ∧
      ((0 ≤ (7 : ℤ) ∧ (7 : ℤ) <
          ((GridLayout.mk 3 3 [⟨0, 0, 2, 2, -1⟩]).cells.length : ℤ)) →
        ∀ c : GridCell,
          (GridLayout.mk 3 3 [⟨0, 0, 2, 2, -1⟩]).cells[(7 : ℤ).toNat]? = some c →
          c.index ≠ -1)) :=
  ⟨grid_layout_invariant.1 3 3
      [⟨0, 0, 2, 2, -1⟩, ⟨2, 2, 1, 1, 5⟩]
      ⟨3, 3, [⟨0, 0, 2, 2, -1⟩, ⟨2, 2, 1, 1, 5⟩]⟩ (by decide),
   grid_layout_invariant.2.2.2 ⟨3, 3, [⟨0, 0, 2, 2, -1⟩]⟩ 7⟩

/-! ## Claim C8 -/

/-- Claim C8: the two concrete namings from the spec hold, but the
255-character cap does not.  With a 250-character directory name and a
250-character base name, the truncation loop drops the only path component
and breaks with the stale `path_part` still set; the final check then
computes a non-positive `available_len` and falls back to
`base_name + suffix`, returning a 262-character filename that exceeds the
cap without any truncation of the base name. -/
theorem generate_unique_filename_overflow :
    generate_unique_filename
        [("root").data, ("sub").data, ("video.mp4").data] [("root").data] =
      ("sub_video_montage.jpg").data ∧
    generate_unique_filename [("root").data, ("video.mp4").data]
        [("root").data] =
      ("video_montage.jpg").data ∧
    generate_unique_filename
        [("r").data, List.replicate 250 'a',
          List.replicate 250 'b' ++ (".mp4").data] [("r").data] =
      List.replicate 250 'b' ++ ("_montage.jpg").data ∧
    (generate_unique_filename
        [("r").data, List.replicate 250 'a',
          List.replicate 250 'b' ++ (".mp4").data] [("r").data]).length =
      262 ∧
    maxFilenameLen < 262 := by
  refine ⟨?_, ?_, ?_, ?_, ?_⟩ <;> with_unfolding_all decide

end MontagePy
